import Mathlib

/-!
Verification of the rule-based dialogue engine (bot package): intent
classification, entity extraction, per-user conversation state with expiry,
action routing and the knowledge store, shallowly embedded from the Python
sources (`bot/core/intent_engine.py`, `bot/core/context_manager.py`,
`bot/core/action_router.py`, `bot/core/knowledge_engine.py`,
`bot/main_bot.py`, `bot/skills/weather.py`).

Modelling conventions:
- Python strings are Lean `String` (lists of characters); character classes
  are modelled over ASCII code points, matching the inputs the rule tables
  target.
- Python dicts are association lists preserving insertion order; overwriting
  a key keeps its position, new keys are appended (CPython semantics).
- A value of type `Option String` models a Python variable that may be
  `None`; an entity map entry mapping to `none` models a key that is present
  in the dict but bound to `None`.
- Wall-clock time is an abstract `Nat` passed explicitly; the conversation
  timeout is an abstract `Nat` in the same unit.
- A Python exception escaping the orchestrator is modelled as
  `Except.error`; all ordinary returns are `Except.ok`.
- The simulated randomness of the weather skill (condition, temperature) is
  injected as explicit parameters.
-/

/-- The apostrophe character, written by code point. -/
def aposChar : Char := Char.ofNat 39

/-- Apostrophe as a one-character string, used in the user-facing messages. -/
def q39 : String := aposChar.toString

/-- Whitespace in the sense of `str.strip` and the regex class `\s`
(space, tab, newline, carriage return, vertical tab, form feed). -/
def isWs (c : Char) : Bool := decide (c.toNat = 32 ∨ (9 ≤ c.toNat ∧ c.toNat ≤ 13))

/-- ASCII uppercase letter, the model of `str.isupper` for one character. -/
def pyIsUpper (c : Char) : Bool := decide (65 ≤ c.toNat ∧ c.toNat ≤ 90)

/-- ASCII lowercase letter. -/
def pyIsLower (c : Char) : Bool := decide (97 ≤ c.toNat ∧ c.toNat ≤ 122)

/-- ASCII letter, the model of the regex class `[A-Za-z]`. -/
def pyIsAlphaC (c : Char) : Bool := pyIsUpper c || pyIsLower c

/-- ASCII digit. -/
def pyIsDigitC (c : Char) : Bool := decide (48 ≤ c.toNat ∧ c.toNat ≤ 57)

/-- The regex word class `\w`: letters, digits and underscore. -/
def isWordChar (c : Char) : Bool := pyIsAlphaC c || pyIsDigitC c || c = '_'

/-- Lowercase one character, the model of `str.lower` per character. -/
def pyLowerChar (c : Char) : Char :=
  if 65 ≤ c.toNat ∧ c.toNat ≤ 90 then Char.ofNat (c.toNat + 32) else c

/-- Model of `str.lower`. -/
def lowerStr (s : String) : String := ⟨s.data.map pyLowerChar⟩

/-- Strip whitespace from both ends of a character list. -/
def stripList (cs : List Char) : List Char :=
  ((cs.dropWhile isWs).reverse.dropWhile isWs).reverse

/-- Model of `str.strip()`. -/
def pyStrip (s : String) : String := ⟨stripList s.data⟩

/-- Python truthiness of an optional string: `None` and the empty string are
falsy, every other string is truthy. -/
def truthyOpt : Option String → Bool
  | none => false
  | some v => v ≠ ""

/-- Association-list update with CPython dict semantics: an existing key
keeps its position and gets the new value, a new key is appended. -/
def alSet {β : Type} (m : List (String × β)) (k : String) (v : β) :
    List (String × β) :=
  match m with
  | [] => [(k, v)]
  | (k0, v0) :: rest =>
      if k0 = k then (k, v) :: rest else (k0, v0) :: alSet rest k v

/-- Association-list lookup, the model of `d[k]` and `d.get(k)` presence. -/
def alGet {β : Type} (m : List (String × β)) (k : String) : Option β :=
  (m.find? (fun p => p.1 = k)).map (·.2)

/-- Model of `dict.update`: fold the new bindings over the old map. -/
def dictUpdate {β : Type} (m newE : List (String × β)) : List (String × β) :=
  match newE with
  | [] => m
  | (k, v) :: rest => dictUpdate (alSet m k v) rest

/-- An entity map: entity name to extracted value, where `none` models a key
bound to Python `None`. -/
abbrev EntityMap := List (String × Option String)

/-- Entity lookup: `some ov` when the key is present (possibly bound to
`None`), `none` when the key is absent from the dict. -/
def eget (m : EntityMap) (k : String) : Option (Option String) := alGet m k

/-- The key is present with a truthy (non-`None`, non-empty) value: the test
`k in d and d[k]` used throughout the orchestrator. -/
def filledInB (m : EntityMap) (k : String) : Bool :=
  match eget m k with
  | some ov => truthyOpt ov
  | none => false

/-- Word boundary to the left of a token that starts with a word character:
start of string, or the preceding character is not a word character. -/
def boundaryL : Option Char → Bool
  | none => true
  | some c => !isWordChar c

/-- Word boundary to the right of a token that ends with a word character:
end of string, or the following character is not a word character. -/
def boundaryR : List Char → Bool
  | [] => true
  | c :: _ => !isWordChar c

/-- Scan all start positions of `re.search`, threading the previous
character for word-boundary tests; `p prev rest` decides whether a match
starts at the given position. -/
def scanAux (p : Option Char → List Char → Bool) :
    Option Char → List Char → Bool
  | prev, [] => p prev []
  | prev, c :: rest => p prev (c :: rest) || scanAux p (some c) rest

/-- Boolean `re.search` over all positions of a character list. -/
def reSearchB (p : Option Char → List Char → Bool) (cs : List Char) : Bool :=
  scanAux p none cs

/-- Consume a literal word; the input is already lowercased by the caller. -/
def matchLit : List Char → List Char → Option (List Char)
  | [], rest => some rest
  | _, [] => none
  | l :: ls, c :: cs => if c = l then matchLit ls cs else none

/-- Consume a literal word case-insensitively (for `re.IGNORECASE` rules);
the pattern word is given lowercase. -/
def matchLitCI : List Char → List Char → Option (List Char)
  | [], rest => some rest
  | _, [] => none
  | l :: ls, c :: cs => if pyLowerChar c = l then matchLitCI ls cs else none

/-- Match one word with `\b` on both sides at the current position. -/
def wordAt (w : List Char) (prev : Option Char) (cs : List Char) : Bool :=
  boundaryL prev &&
    match matchLit w cs with
    | some rest => boundaryR rest
    | none => false

/-- `re.search` for the pattern `\b<word>\b` on lowercased text. -/
def hasWord (w : String) (cs : List Char) : Bool := reSearchB (wordAt w.data) cs

/-- Consume `\s+` (one or more whitespace characters, then every following
whitespace character: greedy, and no later element of these patterns can
match a whitespace character, so the maximal run is the only choice). -/
def wsPlus : List Char → Option (List Char)
  | c :: cs => if isWs c then some (cs.dropWhile isWs) else none
  | [] => none

/-- Consume an optional single character (the regex `x?` where the following
pattern element cannot match `x`). -/
def optChar (c : Char) (l : List Char) : List Char :=
  match l with
  | x :: xs => if x = c then xs else l
  | [] => []

/-- Matcher for `\bhow'?s?\s+it\s+outside\b` at one position (lowercased text). -/
def matchHowsItOutside (prev : Option Char) (cs : List Char) : Bool :=
  boundaryL prev &&
    match matchLit "how".data cs with
    | none => false
    | some r1 =>
        let r2 := optChar aposChar r1
        let r3 := optChar 's' r2
        match wsPlus r3 with
        | none => false
        | some r4 =>
            match matchLit "it".data r4 with
            | none => false
            | some r5 =>
                match wsPlus r5 with
                | none => false
                | some r6 =>
                    match matchLit "outside".data r6 with
                    | some r7 => boundaryR r7
                    | none => false

/-- Matcher for `\bwhat'?s?\s+the\s+weather\b` at one position. -/
def matchWhatsTheWeather (prev : Option Char) (cs : List Char) : Bool :=
  boundaryL prev &&
    match matchLit "what".data cs with
    | none => false
    | some r1 =>
        let r2 := optChar aposChar r1
        let r3 := optChar 's' r2
        match wsPlus r3 with
        | none => false
        | some r4 =>
            match matchLit "the".data r4 with
            | none => false
            | some r5 =>
                match wsPlus r5 with
                | none => false
                | some r6 =>
                    match matchLit "weather".data r6 with
                    | some r7 => boundaryR r7
                    | none => false

/-- Matcher for `\bwhat\s+is\b` at one position. -/
def matchWhatIs (prev : Option Char) (cs : List Char) : Bool :=
  boundaryL prev &&
    match matchLit "what".data cs with
    | none => false
    | some r1 =>
        match wsPlus r1 with
        | none => false
        | some r2 =>
            match matchLit "is".data r2 with
            | some r3 => boundaryR r3
            | none => false

/-- Matcher for `\btell\s+me\s+about\b` at one position. -/
def matchTellMeAbout (prev : Option Char) (cs : List Char) : Bool :=
  boundaryL prev &&
    match matchLit "tell".data cs with
    | none => false
    | some r1 =>
        match wsPlus r1 with
        | none => false
        | some r2 =>
            match matchLit "me".data r2 with
            | none => false
            | some r3 =>
                match wsPlus r3 with
                | none => false
                | some r4 =>
                    match matchLit "about".data r4 with
                    | some r5 => boundaryR r5
                    | none => false

/-- Matcher for `\bdo\s+you\s+know\b` at one position. -/
def matchDoYouKnow (prev : Option Char) (cs : List Char) : Bool :=
  boundaryL prev &&
    match matchLit "do".data cs with
    | none => false
    | some r1 =>
        match wsPlus r1 with
        | none => false
        | some r2 =>
            match matchLit "you".data r2 with
            | none => false
            | some r3 =>
                match wsPlus r3 with
                | none => false
                | some r4 =>
                    match matchLit "know".data r4 with
                    | some r5 => boundaryR r5
                    | none => false

/-- Matcher for `\bwhat'?s\b` at one position. -/
def matchWhatsWord (prev : Option Char) (cs : List Char) : Bool :=
  boundaryL prev &&
    match matchLit "what".data cs with
    | none => false
    | some r1 =>
        let r2 := optChar aposChar r1
        match matchLit "s".data r2 with
        | some r3 => boundaryR r3
        | none => false

/-- `.+\b` starting here: one or more non-newline characters ending at a
word boundary (existence semantics, enough for a boolean `re.search`). -/
def dotPlusB : List Char → Bool
  | [] => false
  | c :: rest =>
      c ≠ '\n' &&
        ((isWordChar c != (match rest with
            | d :: _ => isWordChar d
            | [] => false)) || dotPlusB rest)

/-- `\s*.+\b` starting here: try a zero-length `\s*` first, otherwise consume
one whitespace character and retry (existence semantics). -/
def wsStarDotPlusB : List Char → Bool
  | [] => false
  | c :: rest => dotPlusB (c :: rest) || (isWs c && wsStarDotPlusB rest)

/-- Matcher for `\b[\w_]+\s*=\s*.+\b` at one position. -/
def matchLearnEq (prev : Option Char) (cs : List Char) : Bool :=
  boundaryL prev &&
    match cs with
    | [] => false
    | c :: rest =>
        isWordChar c &&
          (let r1 := (rest.dropWhile isWordChar).dropWhile isWs
           match r1 with
           | '=' :: r2 => wsStarDotPlusB r2
           | _ => false)

/-- Any `get_weather` pattern matches (rule list order as in the source). -/
def gwMatch (cs : List Char) : Bool :=
  hasWord "weather" cs || hasWord "temperature" cs || hasWord "forecast" cs ||
    reSearchB matchHowsItOutside cs || reSearchB matchWhatsTheWeather cs

/-- Any `learn_knowledge` pattern matches. -/
def learnMatch (cs : List Char) : Bool :=
  hasWord "learn" cs || hasWord "teach" cs || hasWord "remember" cs ||
    reSearchB matchLearnEq cs

/-- Any `ask_knowledge` pattern matches. -/
def askMatch (cs : List Char) : Bool :=
  reSearchB matchWhatIs cs || reSearchB matchTellMeAbout cs ||
    reSearchB matchDoYouKnow cs || reSearchB matchWhatsWord cs

/-- Model of `IntentEngine.detect_intent`: lowercase and strip, reject empty
text, classify `learn_knowledge` unconditionally when an `=` is present,
otherwise try the pattern table in registration order
(`get_weather`, `learn_knowledge`, `ask_knowledge`). -/
def detect_intent (text : String) : Option String :=
  let tl := (pyStrip (lowerStr text)).data
  if tl = [] then none
  else if tl.contains '=' then some "learn_knowledge"
  else if gwMatch tl then some "get_weather"
  else if learnMatch tl then some "learn_knowledge"
  else if askMatch tl then some "ask_knowledge"
  else none

/-- The character class `[A-Za-z\s]` of the location pattern. -/
def locClass (c : Char) : Bool := pyIsAlphaC c || isWs c

/-- The location terminator `(?:\s+\?|$|\.|,)` matches at this suffix.
`$` also matches just before a final newline (Python non-MULTILINE `$`). -/
def locTermB (l : List Char) : Bool :=
  (match l with
   | c :: rest =>
       (isWs c && (rest.dropWhile isWs).head? = some '?') || c = '.' || c = ','
   | [] => false) ||
    l = [] || l = ['\n']

/-- The lazy group `([A-Za-z\s]+?)` followed by the terminator: grow the
group one character at a time and stop at the first length at which the
terminator matches (non-greedy preference order). -/
def lazyLoc (acc : List Char) : List Char → Option (List Char)
  | c :: rest =>
      if locClass c then
        if locTermB rest then some (acc ++ [c]) else lazyLoc (acc ++ [c]) rest
      else none
  | [] => none

/-- `\s*` before the lazy group, after the first mandatory whitespace of
`\s+`: greedy, so prefer consuming further whitespace, and fall back to
starting the group here (the group class also accepts whitespace). -/
def afterWs : List Char → Option (List Char)
  | [] => none
  | c :: rest =>
      if isWs c then
        match afterWs rest with
        | some g => some g
        | none => lazyLoc [] (c :: rest)
      else lazyLoc [] (c :: rest)

/-- Match `\bin\s+([A-Za-z\s]+?)(?:\s+\?|$|\.|,)` at one position of the
original text (`re.IGNORECASE`), returning the raw group. -/
def matchInAt (prev : Option Char) (cs : List Char) : Option (List Char) :=
  if boundaryL prev then
    match cs with
    | c1 :: c2 :: rest =>
        if pyLowerChar c1 = 'i' ∧ pyLowerChar c2 = 'n' then
          match rest with
          | c :: rest2 => if isWs c then afterWs (c :: rest2) else none
          | [] => none
        else none
    | _ => none
  else none

/-- `re.search` of the `in <location>` pattern: leftmost position wins. -/
def searchIn : Option Char → List Char → Option (List Char)
  | _, [] => none
  | prev, c :: rest =>
      match matchInAt prev (c :: rest) with
      | some g => some g
      | none => searchIn (some c) rest

/-- Model of `str.split()`: split on whitespace runs, dropping empties. -/
def splitWsAux : List Char → List Char → List String
  | acc, [] => if acc = [] then [] else [⟨acc.reverse⟩]
  | acc, c :: rest =>
      if isWs c then
        if acc = [] then splitWsAux [] rest
        else ⟨acc.reverse⟩ :: splitWsAux [] rest
      else splitWsAux (c :: acc) rest

/-- Model of `text.split()`. -/
def pySplitWs (s : String) : List String := splitWsAux [] s.data

/-- One of the punctuation characters of `str.strip("?.,!")`. -/
def isPunct4 (c : Char) : Bool := c = '?' || c = '.' || c = ',' || c = '!'

/-- Model of `word.strip("?.,!")`. -/
def stripPunct (s : String) : String :=
  ⟨((s.data.dropWhile isPunct4).reverse.dropWhile isPunct4).reverse⟩

/-- The trigger words of the token-window heuristic. -/
def isTriggerWord (w : String) : Bool :=
  lowerStr w = "weather" || lowerStr w = "forecast" || lowerStr w = "temperature"

/-- Collect the words after the first one in the token window: only words
whose first character is uppercase continue the location. -/
def collectMore : List String → List String
  | [] => []
  | w :: rest =>
      match w.data with
      | c :: _ => if pyIsUpper c then stripPunct w :: collectMore rest else []
      | [] => []

/-- The token window after a trigger word: the immediately next word is
always taken, then up to two more uppercase-initial words. -/
def collectParts : List String → List String
  | [] => []
  | w1 :: rest => stripPunct w1 :: collectMore (rest.take 2)

/-- The token-window heuristic loop of `_extract_location`: find a trigger
word followed by at least one word and join the collected window. -/
def heuristicLoc : List String → Option String
  | [] => none
  | w :: rest =>
      if isTriggerWord w then
        match rest with
        | [] => heuristicLoc rest
        | _ => some (String.intercalate " " (collectParts rest))
      else heuristicLoc rest

/-- Model of `IntentEngine._extract_location`: the `in <location>` regex
first, then the trigger-word token-window heuristic. -/
def extractLocation (text : String) : Option String :=
  match searchIn none text.data with
  | some g => some (pyStrip ⟨g⟩)
  | none => heuristicLoc (pySplitWs text)

/-- The key-value terminator `(?:\s*$|\.|\?)` matches at this suffix. -/
def kvTermB (l : List Char) : Bool :=
  l.dropWhile isWs = [] ||
    (match l with
     | '.' :: _ => true
     | '?' :: _ => true
     | _ => false)

/-- The lazy group `(.+?)` followed by the key-value terminator. -/
def lazyDot (acc : List Char) : List Char → Option (List Char)
  | c :: rest =>
      if c ≠ '\n' then
        if kvTermB rest then some (acc ++ [c]) else lazyDot (acc ++ [c]) rest
      else none
  | [] => none

/-- `\s*` after the `=`, greedy with fallback into the lazy `(.+?)` group
(the dot class also accepts whitespace). -/
def afterEq : List Char → Option (List Char)
  | [] => none
  | c :: rest =>
      if isWs c then
        match afterEq rest with
        | some g => some g
        | none => lazyDot [] (c :: rest)
      else lazyDot [] (c :: rest)

/-- The core `([a-z_]\w*)\s*=\s*(.+?)(?:\s*$|\.|\?)` of the learn pattern at
one position (`re.IGNORECASE` makes `[a-z_]` accept any ASCII letter). -/
def kvCore (l : List Char) : Option (List Char × List Char) :=
  match l with
  | [] => none
  | c :: rest =>
      if pyIsAlphaC c || c = '_' then
        match (rest.dropWhile isWordChar).dropWhile isWs with
        | c1 :: r2 =>
            if c1 = '=' then
              match afterEq r2 with
              | some g2 => some (c :: rest.takeWhile isWordChar, g2)
              | none => none
            else none
        | [] => none
      else none

/-- The full learn pattern `(?:learn\s+)?([a-z_]\w*)\s*=\s*(.+?)(?:\s*$|\.|\?)`
at one position: the optional prefix is greedy, so try it first. -/
def kvAt (l : List Char) : Option (List Char × List Char) :=
  match matchLitCI "learn".data l with
  | some (c :: rest) =>
      if isWs c then
        match kvCore ((c :: rest).dropWhile isWs) with
        | some g => some g
        | none => kvCore l
      else kvCore l
  | _ => kvCore l

/-- `re.search` for the learn pattern: leftmost position wins. -/
def kvSearch : List Char → Option (List Char × List Char)
  | [] => none
  | c :: rest =>
      match kvAt (c :: rest) with
      | some g => some g
      | none => kvSearch rest

/-- Model of `IntentEngine._extract_key_value`: strip both captured groups,
or return the `(None, None)` pair when the pattern does not match. -/
def extractKeyValue (text : String) : Option String × Option String :=
  match kvSearch text.data with
  | some (g1, g2) => (some (pyStrip ⟨g1⟩), some (pyStrip ⟨g2⟩))
  | none => (none, none)

/-- The stop words removed by `_extract_question_key`, in alternation order. -/
def stopWords : List String :=
  ["what", "is", "the", "tell", "me", "about", "do", "you", "know"]

/-- Try every stop-word alternative at this position (`\b(...)\b`,
`re.IGNORECASE`); on success return the last character of the matched word
(for the boundary state of the continued scan) and the rest of the text. -/
def tryStops (prev : Option Char) (l : List Char) : Option (Char × List Char) :=
  if boundaryL prev then
    stopWords.firstM (fun w =>
      match matchLitCI w.data l with
      | some r => if boundaryR r then
          match w.data.getLast? with
          | some lc => some (lc, r)
          | none => none
        else none
      | none => none)
  else none

/-- One pass of `re.sub` for the stop-word pattern: non-overlapping,
leftmost matches replaced by the empty string (fuel-driven recursion; the
fuel is at least the length of the text, and every step consumes at least
one character). -/
def subStopF : Nat → Option Char → List Char → List Char
  | 0, _, l => l
  | _ + 1, _, [] => []
  | n + 1, prev, c :: rest =>
      match tryStops prev (c :: rest) with
      | some (lc, r) => subStopF n (some lc) r
      | none => c :: subStopF n (some c) rest

/-- Model of the stop-word `re.sub` over a whole text. -/
def subStop (l : List Char) : List Char := subStopF (l.length + 1) none l

/-- Model of `IntentEngine._extract_question_key`: remove stop words, remove
`[?.,!]`, strip; if anything is left, lowercase and replace each space by an
underscore, else `None`. -/
def extractQuestionKey (text : String) : Option String :=
  let cleaned := stripList ((subStop text.data).filter (fun c => !isPunct4 c))
  if cleaned = [] then none
  else some ⟨(cleaned.map pyLowerChar).map (fun c => if c = ' ' then '_' else c)⟩

/-- Model of `IntentEngine.extract_entities`: intent-specific extraction;
note that for `get_weather` and `ask_knowledge` the key is always inserted,
even when the extractor produced `None`. -/
def extract_entities (text intent : String) : EntityMap :=
  if intent = "get_weather" then [("location", extractLocation text)]
  else if intent = "learn_knowledge" then
    (match (extractKeyValue text).1 with
     | some k => if k ≠ "" then [("key", some k)] else []
     | none => []) ++
    (match (extractKeyValue text).2 with
     | some v => if v ≠ "" then [("value", some v)] else []
     | none => [])
  else if intent = "ask_knowledge" then [("key", extractQuestionKey text)]
  else []

/-- Model of `IntentEngine.get_missing_entities`: the required names that
are absent or falsy in the extracted map, in required order. -/
def getMissingEntities (required : List String) (extracted : EntityMap) :
    List String :=
  required.filter (fun e => !filledInB extracted e)

/-- Model of `IntentEngine.prompt_for_entity`. -/
def promptForEntity (e : String) : String :=
  if e = "location" then "Can you please tell me the location?"
  else if e = "key" then "What would you like me to learn?"
  else if e = "value" then "What" ++ q39 ++ "s the value for that?"
  else "Can you please tell me the " ++ e ++ "?"

/-- Model of `ConversationContext`: per-user pending conversation state.
`timestamp` is the creation time recorded by the constructor. -/
structure Ctx where
  user_id : String
  intent : String
  entities : EntityMap
  missing : List String
  timestamp : Nat
deriving DecidableEq, Repr

/-- The mutable state of the bot host: the knowledge base mapping of
`KnowledgeEngine` and the per-user contexts of `ContextManager`. -/
structure BotState where
  knowledge : List (String × String)
  contexts : List (String × Ctx)
deriving DecidableEq, Repr

/-- Lookup of a stored conversation context by user id. -/
def ctxGet (st : BotState) (u : String) : Option Ctx := alGet st.contexts u

/-- Model of `ConversationContext.is_expired`: age strictly above timeout. -/
def isExpired (c : Ctx) (now timeout : Nat) : Bool := now - c.timestamp > timeout

/-- Model of `ContextManager.set_pending`: replace any existing state. -/
def cmSetPending (u intent : String) (entities : EntityMap)
    (missing : List String) (now : Nat) (st : BotState) : BotState :=
  { st with contexts := alSet st.contexts u ⟨u, intent, entities, missing, now⟩ }

/-- Model of `ContextManager.clear`: delete the entry if present. -/
def cmClear (u : String) (st : BotState) : BotState :=
  { st with contexts := st.contexts.filter (fun p => !(p.1 = u : Bool)) }

/-- Model of `ContextManager.get_pending`: lazy expiry on access. -/
def cmGetPending (u : String) (now timeout : Nat) (st : BotState) :
    Option Ctx × BotState :=
  match ctxGet st u with
  | none => (none, st)
  | some c => if isExpired c now timeout then (none, cmClear u st) else (some c, st)

/-- Model of `ContextManager.update_entities`: merge the new entities into
the stored map and drop from `missing` every name that the new entities
fill with a truthy value. -/
def cmUpdateEntities (u : String) (newE : EntityMap) (st : BotState) : BotState :=
  match ctxGet st u with
  | none => st
  | some c =>
      let c2 : Ctx :=
        { c with entities := dictUpdate c.entities newE,
                 missing := c.missing.filter (fun e => !filledInB newE e) }
      { st with contexts := alSet st.contexts u c2 }

/-- The in-place mutation `context.entities[slot] = value` of the follow-up
handler, written through to the stored context (the handler holds the same
object the store holds). -/
def cmSetCtxEntities (u : String) (ents : EntityMap) (st : BotState) : BotState :=
  match ctxGet st u with
  | none => st
  | some c =>
      let c2 : Ctx := { c with entities := ents }
      { st with contexts := alSet st.contexts u c2 }

/-- Model of `ContextManager.cleanup_expired`: sweep every expired entry. -/
def cmCleanupExpired (now timeout : Nat) (st : BotState) : Nat × BotState :=
  ((st.contexts.filter (fun p => isExpired p.2 now timeout)).length,
   { st with contexts := st.contexts.filter (fun p => !isExpired p.2 now timeout) })

/-- Model of `KnowledgeEngine.add_knowledge`: normalize the key (lowercase,
strip), trim the value, overwrite. -/
def add_knowledge (kb : List (String × String)) (key value : String) :
    List (String × String) :=
  alSet kb (pyStrip (lowerStr key)) (pyStrip value)

/-- Substring containment, the model of Python `a in b` on strings. -/
def strContains (needle hay : List Char) : Bool :=
  (List.range (hay.length + 1)).any (fun i => needle.isPrefixOf (hay.drop i))

/-- Model of `KnowledgeEngine.query`: normalize, direct match first, then
containment fuzzy match in stored iteration order, else the fallback text. -/
def kquery (kb : List (String × String)) (question : String) : String :=
  let normalized := pyStrip (lowerStr question)
  match alGet kb normalized with
  | some v => v
  | none =>
      match kb.find? (fun p =>
          strContains p.1.data normalized.data ||
            strContains normalized.data p.1.data) with
      | some p => p.2
      | none => "I don" ++ q39 ++ "t know that yet. Try teaching me!"

/-- Model of `KnowledgeEngine.get`: exact normalized lookup only. -/
def kget (kb : List (String × String)) (key : String) : Option String :=
  alGet kb (pyStrip (lowerStr key))

/-- An action (skill) registered with the router: the capability contract of
`BaseAction`. `execute` may fail, modelled by `Except`. -/
structure BaseAction where
  can_handle : String → Bool
  required_entities : List String
  execute : EntityMap → Except String String

/-- Model of `ActionRouter.route`: first registered action whose predicate
accepts the intent executes; an execution failure is converted to the
apologetic message at this boundary; no match yields the fixed message. -/
def route (actions : List BaseAction) (intent : String) (params : EntityMap) :
    String :=
  match actions.find? (fun a => a.can_handle intent) with
  | some a =>
      match a.execute params with
      | .ok r => r
      | .error e => "Sorry, an error occurred: " ++ e
  | none => "Sorry, I don" ++ q39 ++ "t have an action for " ++ q39 ++ intent
      ++ q39 ++ "."

/-- Model of `ActionRouter.get_required_entities`. -/
def getRequiredEntities (actions : List BaseAction) (intent : String) :
    List String :=
  match actions.find? (fun a => a.can_handle intent) with
  | some a => a.required_entities
  | none => []

/-- Model of `WeatherAction.execute` with the randomness (condition and
temperature) injected as parameters; `params.get("location", "unknown")`
returns the stored value even when it is `None`, which an f-string would
render as the text `None`. -/
def weatherExecute (cond : String) (temp : Nat) (params : EntityMap) :
    Except String String :=
  let location :=
    match eget params "location" with
    | some (some v) => v
    | some none => "None"
    | none => "unknown"
  .ok ("The weather in " ++ location ++ " is " ++ cond ++
    " with a temperature of " ++ toString temp ++ "°C.")

/-- Model of `WeatherAction`: handles `get_weather`, requires `location`. -/
def weatherAction (cond : String) (temp : Nat) : BaseAction :=
  { can_handle := fun i => i = "get_weather",
    required_entities := ["location"],
    execute := weatherExecute cond temp }

/-- Model of `MainBot._handle_new_message` (the text is already stripped by
`process_message`). The `ask_knowledge` branch reads
`entities.get("key", text)`: the default is taken only when the key is
absent, so a key that is present but bound to `None` reaches
`KnowledgeEngine.query`, where `None.lower()` raises `AttributeError`. -/
def handleNewMessage (actions : List BaseAction) (now : Nat) (st : BotState)
    (user text : String) : Except String String × BotState :=
  match detect_intent text with
  | none => (.ok ("I didn" ++ q39 ++ "t understand. Can you rephrase?"), st)
  | some intent =>
    if intent = "ask_knowledge" then
      let entities := extract_entities text intent
      match (match eget entities "key" with
             | some ov => ov
             | none => some text : Option String) with
      | some k => (.ok (kquery st.knowledge k), st)
      | none => (.error "AttributeError: NoneType has no attribute lower", st)
    else if intent = "learn_knowledge" then
      let entities := extract_entities text intent
      let key : Option String := Option.join (eget entities "key")
      let value : Option String := Option.join (eget entities "value")
      if !truthyOpt key then
        (.ok (promptForEntity "key"),
         cmSetPending user intent entities ["key", "value"] now st)
      else if !truthyOpt value then
        (.ok (promptForEntity "value"),
         cmSetPending user intent entities ["value"] now st)
      else
        (.ok ("Learned " ++ q39 ++ key.getD "" ++ q39 ++ " = " ++ q39 ++
            value.getD "" ++ q39),
         { st with knowledge := add_knowledge st.knowledge (key.getD "") (value.getD "") })
    else
      let entities := extract_entities text intent
      let required := getRequiredEntities actions intent
      let missing := getMissingEntities required entities
      match missing with
      | m :: _ =>
          (.ok (promptForEntity m), cmSetPending user intent entities missing now st)
      | [] => (.ok (route actions intent entities), st)

/-- The slot assignment of `MainBot._handle_followup`: for `learn_knowledge`
the raw stripped text goes directly into the `key`/`value` slot; otherwise
the extractor runs scoped to the pending intent, and its value is used when
it is truthy for the slot, the raw stripped text otherwise. -/
def fillSlot (text : String) (ctx : Ctx) (slot : String) : EntityMap :=
  if ctx.intent = "learn_knowledge" then
    if slot = "key" then alSet ctx.entities "key" (some (pyStrip text))
    else if slot = "value" then alSet ctx.entities "value" (some (pyStrip text))
    else ctx.entities
  else
    match eget (extract_entities text ctx.intent) slot with
    | some (some v) =>
        if v ≠ "" then alSet ctx.entities slot (some v)
        else alSet ctx.entities slot (some (pyStrip text))
    | _ => alSet ctx.entities slot (some (pyStrip text))

/-- Model of `MainBot._handle_followup`. The context object is the stored
one, so the slot assignment writes through to the store before
`update_entities` merges the (identical) map and re-filters `missing`. -/
def handleFollowup (actions : List BaseAction) (st : BotState)
    (user text : String) (ctx : Ctx) : Except String String × BotState :=
  match ctx.missing with
  | [] => (.ok (route actions ctx.intent ctx.entities), cmClear user st)
  | slot :: _ =>
    let ents2 := fillSlot text ctx slot
    let st3 := cmUpdateEntities user ents2 (cmSetCtxEntities user ents2 st)
    match (ctxGet st3 user).map Ctx.missing with
    | some (m :: _) => (.ok (promptForEntity m), st3)
    | _ =>
      let st4 := cmClear user st3
      if ctx.intent = "learn_knowledge" then
        let key : Option String := Option.join (eget ents2 "key")
        let value : Option String := Option.join (eget ents2 "value")
        if truthyOpt key && truthyOpt value then
          (.ok ("Learned " ++ q39 ++ key.getD "" ++ q39 ++ " = " ++ q39 ++
              value.getD "" ++ q39),
           { st4 with knowledge := add_knowledge st4.knowledge (key.getD "") (value.getD "") })
        else (.ok (route actions ctx.intent ents2), st4)
      else (.ok (route actions ctx.intent ents2), st4)

/-- Model of `MainBot.process_message`: re-prompt on empty text, otherwise
strip, look up the pending context (with lazy expiry at time `now`) and
dispatch to the follow-up or new-message handler. -/
def processMessage (actions : List BaseAction) (timeout now : Nat) (st : BotState)
    (user text : String) : Except String String × BotState :=
  if pyStrip text = "" then (.ok "Could you please say that again?", st)
  else
    match cmGetPending user now timeout st with
    | (some ctx, st1) => handleFollowup actions st1 user (pyStrip text) ctx
    | (none, st1) => handleNewMessage actions now st1 user (pyStrip text)

/-- Run a sequence of timed messages for one user through the orchestrator,
collecting the responses (used to state the slot-filling property). -/
def processTurns (actions : List BaseAction) (timeout : Nat) (user : String) :
    BotState → List (Nat × String) → List (Except String String) × BotState
  | st, [] => ([], st)
  | st, (n, t) :: rest =>
      let r := processMessage actions timeout n st user t
      let rs := processTurns actions timeout user r.2 rest
      (r.1 :: rs.1, rs.2)

/-- The `ConversationState` invariant: every name in `missing` is absent or
falsy (empty or `None`) in `entities`. -/
def invCtx (c : Ctx) : Prop := ∀ e ∈ c.missing, filledInB c.entities e = false

/-- Strengthened well-formedness used to carry the invariant through the
orchestrator: the entity map has no duplicate keys (it models a Python
dict), together with the missing-entity invariant. -/
def ctxWF (c : Ctx) : Prop := ((c.entities.map Prod.fst).Nodup) ∧ invCtx c

/-- The bot states reachable by the orchestrator: a fresh bot has no pending
conversation for any user (any initial knowledge base), and states are
closed under processing one message at any time for any user. -/
inductive Reach (actions : List BaseAction) (timeout : Nat) : BotState → Prop
  | init (kb : List (String × String)) : Reach actions timeout ⟨kb, []⟩
  | step (st : BotState) (now : Nat) (user text : String) :
      Reach actions timeout st →
      Reach actions timeout (processMessage actions timeout now st user text).2
theorem alGet_cons {β : Type} (k0 : String) (v0 : β) (rest : List (String × β))
    (k' : String) :
    alGet ((k0, v0) :: rest) k' = if k0 = k' then some v0 else alGet rest k' := by
  by_cases h : k0 = k'
  · simp only [alGet]
    rw [List.find?_cons_of_pos _ (by simp [h])]
    simp [h]
  · simp only [alGet]
    rw [List.find?_cons_of_neg _ (by simp [h])]
    simp [h]

theorem alGet_alSet {β : Type} (m : List (String × β)) (k k' : String) (v : β) :
    alGet (alSet m k v) k' = if k' = k then some v else alGet m k' := by
  induction m with
  | nil =>
      rw [show alSet ([] : List (String × β)) k v = [(k, v)] from rfl, alGet_cons]
      by_cases h : k' = k
      · rw [if_pos h.symm, if_pos h]
      · rw [if_neg (fun hh => h hh.symm), if_neg h]
  | cons p rest ih =>
      obtain ⟨k0, v0⟩ := p
      by_cases h0 : k0 = k
      · subst h0
        have e1 : alSet ((k0, v0) :: rest) k0 v = (k0, v) :: rest := by
          simp [alSet]
        rw [e1, alGet_cons, alGet_cons]
        by_cases h : k' = k0
        · rw [if_pos h.symm, if_pos h]
        · rw [if_neg (fun hh => h hh.symm), if_neg h, if_neg (fun hh => h hh.symm)]
      · have e1 : alSet ((k0, v0) :: rest) k v = (k0, v0) :: alSet rest k v := by
          simp [alSet, h0]
        rw [e1, alGet_cons, ih, alGet_cons]
        by_cases h : k0 = k'
        · have hk : ¬ k' = k := fun hh => h0 (h.trans hh)
          rw [if_pos h, if_neg hk, if_pos h]
        · by_cases hk : k' = k
          · rw [if_neg h, if_pos hk, if_pos hk]
          · rw [if_neg h, if_neg hk, if_neg hk, if_neg h]

theorem eget_alSet (m : EntityMap) (k k' : String) (v : Option String) :
    eget (alSet m k v) k' = if k' = k then some v else eget m k' :=
  alGet_alSet m k k' v

theorem alGet_eq_none_of_not_mem {β : Type} (m : List (String × β)) (k : String)
    (h : k ∉ m.map Prod.fst) : alGet m k = none := by
  induction m with
  | nil => rfl
  | cons p rest ih =>
      obtain ⟨k0, v0⟩ := p
      simp only [List.map_cons, List.mem_cons, not_or] at h
      rw [alGet_cons, if_neg (fun hh => h.1 hh.symm)]
      exact ih h.2

theorem alGet_dictUpdate {β : Type} (newE : List (String × β)) :
    ∀ (m : List (String × β)) (k : String), (newE.map Prod.fst).Nodup →
      alGet (dictUpdate m newE) k =
        match alGet newE k with
        | some v => some v
        | none => alGet m k := by
  induction newE with
  | nil => intro m k _; rfl
  | cons p rest ih =>
      obtain ⟨k0, v0⟩ := p
      intro m k hnd
      simp only [List.map_cons, List.nodup_cons] at hnd
      obtain ⟨hk0, hrest⟩ := hnd
      rw [show dictUpdate m ((k0, v0) :: rest) = dictUpdate (alSet m k0 v0) rest
            from rfl,
          ih (alSet m k0 v0) k hrest, alGet_cons]
      by_cases h : k0 = k
      · subst h
        have hnone : alGet rest k0 = none :=
          alGet_eq_none_of_not_mem rest k0 (by simpa using hk0)
        simp [hnone, alGet_alSet]
      · have hne : ¬ k = k0 := fun hh => h hh.symm
        rw [if_neg h]
        cases hr : alGet rest k with
        | some v => simp [hr]
        | none => simp [hr, alGet_alSet, hne]

theorem eget_dictUpdate (newE : EntityMap) (m : EntityMap) (k : String)
    (hnd : (newE.map Prod.fst).Nodup) :
    eget (dictUpdate m newE) k =
      match eget newE k with
      | some v => some v
      | none => eget m k := by
  have h := alGet_dictUpdate newE m k hnd
  cases hr : eget newE k with
  | some v =>
      unfold eget at hr ⊢
      rw [h, hr]
  | none =>
      unfold eget at hr ⊢
      rw [h, hr]


theorem mem_dropWhile_of_not {α : Type} (p : α → Bool) (l : List α) (x : α)
    (hx : x ∈ l) (hp : p x = false) : x ∈ l.dropWhile p := by
  induction l with
  | nil => cases hx
  | cons a rest ih =>
      rw [List.dropWhile_cons]
      by_cases ha : p a = true
      · simp only [ha, if_true]
        rcases List.mem_cons.mp hx with h1 | h2
        · subst h1; rw [hp] at ha; cases ha
        · exact ih h2
      · simp only [ha, if_false]
        exact hx

theorem mem_stripList (cs : List Char) (x : Char) (hx : x ∈ cs)
    (hws : isWs x = false) : x ∈ stripList cs := by
  unfold stripList
  rw [List.mem_reverse]
  exact mem_dropWhile_of_not _ _ _
    (List.mem_reverse.mpr (mem_dropWhile_of_not _ _ _ hx hws)) hws

theorem dropWhile_eq_self_of_none {α : Type} (p : α → Bool) (l : List α)
    (h : ∀ x ∈ l, p x = false) : l.dropWhile p = l := by
  cases l with
  | nil => rfl
  | cons a rest =>
      rw [List.dropWhile_cons, if_neg (by simp [h a (by simp)])]

theorem stripList_of_no_ws (l : List Char) (h : ∀ x ∈ l, isWs x = false) :
    stripList l = l := by
  unfold stripList
  rw [dropWhile_eq_self_of_none isWs l h,
      dropWhile_eq_self_of_none isWs l.reverse
        (fun x hx => h x (List.mem_reverse.mp hx)),
      List.reverse_reverse]

theorem alGet_filter_ne {β : Type} (m : List (String × β)) (u u' : String) :
    alGet (m.filter (fun p => !(p.1 = u : Bool))) u' =
      if u' = u then none else alGet m u' := by
  induction m with
  | nil => by_cases h : u' = u <;> simp [h, alGet, List.find?]
  | cons p rest ih =>
      obtain ⟨k0, v0⟩ := p
      rw [List.filter_cons]
      by_cases hk : k0 = u
      · rw [if_neg (by simp [hk]), ih]
        by_cases h : u' = u
        · rw [if_pos h, if_pos h]
        · rw [if_neg h, if_neg h, alGet_cons,
            if_neg (fun hh : k0 = u' => h (hh ▸ hk ▸ rfl))]
      · rw [if_pos (by simp [hk]), alGet_cons, ih, alGet_cons]
        by_cases h : k0 = u'
        · have hne : ¬ u' = u := fun hh => hk (h.trans hh)
          rw [if_pos h, if_neg hne, if_pos h]
        · rw [if_neg h, if_neg h]

theorem ctxGet_clear (u u' : String) (st : BotState) :
    ctxGet (cmClear u st) u' = if u' = u then none else ctxGet st u' :=
  alGet_filter_ne st.contexts u u'

theorem ctxGet_setPending (u intent : String) (ents : EntityMap)
    (missing : List String) (now : Nat) (st : BotState) (u' : String) :
    ctxGet (cmSetPending u intent ents missing now st) u' =
      if u' = u then some ⟨u, intent, ents, missing, now⟩ else ctxGet st u' :=
  alGet_alSet st.contexts u u' _

theorem ctxGet_setCtxEntities (u : String) (ents : EntityMap) (st : BotState)
    (u' : String) :
    ctxGet (cmSetCtxEntities u ents st) u' =
      match ctxGet st u with
      | none => ctxGet st u'
      | some c => if u' = u then some { c with entities := ents }
          else ctxGet st u' := by
  unfold cmSetCtxEntities
  cases hc : ctxGet st u with
  | none => rfl
  | some c => exact alGet_alSet st.contexts u u' _

theorem ctxGet_update (u : String) (newE : EntityMap) (st : BotState)
    (u' : String) :
    ctxGet (cmUpdateEntities u newE st) u' =
      match ctxGet st u with
      | none => ctxGet st u'
      | some c =>
          if u' = u then
            some { c with entities := dictUpdate c.entities newE,
                          missing := c.missing.filter (fun e => !filledInB newE e) }
          else ctxGet st u' := by
  unfold cmUpdateEntities
  cases hc : ctxGet st u with
  | none => rfl
  | some c => exact alGet_alSet st.contexts u u' _

theorem mem_keys_alSet {β : Type} (m : List (String × β)) (k x : String) (v : β) :
    x ∈ (alSet m k v).map Prod.fst ↔ x ∈ m.map Prod.fst ∨ x = k := by
  induction m with
  | nil => simp [alSet]
  | cons p rest ih =>
      obtain ⟨k0, v0⟩ := p
      by_cases h0 : k0 = k
      · subst h0
        rw [show alSet ((k0, v0) :: rest) k0 v = (k0, v) :: rest from by
          simp [alSet]]
        simp
        tauto
      · rw [show alSet ((k0, v0) :: rest) k v = (k0, v0) :: alSet rest k v from by
          simp [alSet, h0]]
        simp [ih]
        tauto

theorem alSet_wf {β : Type} (m : List (String × β)) (k : String) (v : β)
    (h : (m.map Prod.fst).Nodup) : ((alSet m k v).map Prod.fst).Nodup := by
  induction m with
  | nil => simp [alSet]
  | cons p rest ih =>
      obtain ⟨k0, v0⟩ := p
      simp only [List.map_cons, List.nodup_cons] at h
      by_cases h0 : k0 = k
      · subst h0
        rw [show alSet ((k0, v0) :: rest) k0 v = (k0, v) :: rest from by
          simp [alSet]]
        simp [h.1, h.2]
      · rw [show alSet ((k0, v0) :: rest) k v = (k0, v0) :: alSet rest k v from by
          simp [alSet, h0]]
        simp only [List.map_cons, List.nodup_cons]
        refine ⟨fun hmem => ?_, ih h.2⟩
        rcases (mem_keys_alSet rest k k0 v).mp hmem with hm | he
        · exact h.1 hm
        · exact h0 he

theorem dictUpdate_wf {β : Type} (newE : List (String × β)) :
    ∀ m : List (String × β), (m.map Prod.fst).Nodup →
      ((dictUpdate m newE).map Prod.fst).Nodup := by
  induction newE with
  | nil => intro m h; exact h
  | cons p rest ih =>
      obtain ⟨k0, v0⟩ := p
      intro m h
      exact ih (alSet m k0 v0) (alSet_wf m k0 v0 h)

theorem filledInB_dictUpdate_self (m : EntityMap) (e : String)
    (hn : (m.map Prod.fst).Nodup) :
    filledInB (dictUpdate m m) e = filledInB m e := by
  unfold filledInB
  rw [eget_dictUpdate m m e hn]
  cases eget m e with
  | none => rfl
  | some ov => rfl

theorem find?_first_accepting (pre : List BaseAction) (a : BaseAction)
    (post : List BaseAction) (intent : String)
    (hpre : ∀ b ∈ pre, b.can_handle intent = false)
    (ha : a.can_handle intent = true) :
    (pre ++ a :: post).find? (fun b => b.can_handle intent) = some a := by
  induction pre with
  | nil => rw [List.nil_append]; exact List.find?_cons_of_pos _ ha
  | cons b rest ih =>
      rw [List.cons_append,
        List.find?_cons_of_neg _ (by simp [hpre b (by simp)])]
      exact ih (fun x hx => hpre x (by simp [hx]))

theorem extract_entities_wf (text intent : String) :
    ((extract_entities text intent).map Prod.fst).Nodup := by
  unfold extract_entities
  split
  · simp
  · split
    · generalize (extractKeyValue text).1 = ko
      generalize (extractKeyValue text).2 = vo
      cases ko <;> cases vo <;> simp <;> split_ifs <;> simp
    · split
      · simp
      · simp

theorem eget_extract_learn_key (text : String) :
    eget (extract_entities text "learn_knowledge") "key" =
      match (extractKeyValue text).1 with
      | some k => if k ≠ "" then some (some k) else none
      | none => none := by
  unfold extract_entities
  rw [if_neg (by decide), if_pos rfl]
  generalize (extractKeyValue text).1 = ko
  generalize (extractKeyValue text).2 = vo
  cases ko <;> cases vo <;> simp [eget, alGet, List.find?] <;> split_ifs <;>
    simp [eget, alGet, List.find?]

theorem eget_extract_learn_value (text : String) :
    eget (extract_entities text "learn_knowledge") "value" =
      match (extractKeyValue text).2 with
      | some v => if v ≠ "" then some (some v) else none
      | none => none := by
  unfold extract_entities
  rw [if_neg (by decide), if_pos rfl]
  generalize (extractKeyValue text).1 = ko
  generalize (extractKeyValue text).2 = vo
  cases ko <;> cases vo <;> simp [eget, alGet, List.find?] <;> split_ifs <;>
    simp [eget, alGet, List.find?]

theorem wordChar_not_ws (c : Char) (h : isWordChar c = true) : isWs c = false := by
  have h9 : 48 ≤ c.toNat ∨ c.toNat = 95 := by
    unfold isWordChar pyIsAlphaC pyIsUpper pyIsLower pyIsDigitC at h
    simp only [Bool.or_eq_true, decide_eq_true_eq] at h
    rcases h with ((h | h) | h) | h
    · exact Or.inl (by omega)
    · exact Or.inl (by omega)
    · exact Or.inl (by omega)
    · exact Or.inr (by rw [h]; rfl)
  unfold isWs
  simp only [decide_eq_false_iff_not]
  omega

theorem kvCore_key (l g1 g2 : List Char) (h : kvCore l = some (g1, g2)) :
    g1 ≠ [] ∧ ∀ x ∈ g1, isWordChar x = true := by
  cases l with
  | nil => cases h
  | cons c rest =>
      simp only [kvCore] at h
      split at h
      next hc =>
        split at h
        next c1 r2 heq =>
          split at h
          next he =>
            split at h
            next g hg =>
              cases h
              refine ⟨by simp, ?_⟩
              intro x hx
              rcases List.mem_cons.mp hx with h1 | h2
              · subst h1
                unfold isWordChar
                simp only [Bool.or_eq_true] at hc ⊢
                rcases hc with hc | hc
                · exact Or.inl (Or.inl hc)
                · exact Or.inr hc
              · exact List.mem_takeWhile_imp h2
            next hg => cases h
          next he => cases h
        next heq => cases h
      next hc => cases h

theorem kvAt_key (l : List Char) (g1 g2 : List Char)
    (h : kvAt l = some (g1, g2)) : g1 ≠ [] ∧ ∀ x ∈ g1, isWordChar x = true := by
  unfold kvAt at h
  split at h
  · split at h
    · split at h
      · rename_i hg
        cases h
        exact kvCore_key _ _ _ hg
      · exact kvCore_key _ _ _ h
    · exact kvCore_key _ _ _ h
  · exact kvCore_key _ _ _ h

theorem kvSearch_key (l : List Char) (g1 g2 : List Char)
    (h : kvSearch l = some (g1, g2)) : g1 ≠ [] ∧ ∀ x ∈ g1, isWordChar x = true := by
  induction l with
  | nil => cases h
  | cons c rest ih =>
      unfold kvSearch at h
      split at h
      · rename_i hg
        cases h
        exact kvAt_key _ _ _ hg
      · exact ih h

theorem extractKeyValue_key_truthy (text : String) (k : String)
    (hk : (extractKeyValue text).1 = some k) : k ≠ "" := by
  unfold extractKeyValue at hk
  split at hk
  · rename_i g1 g2 hg
    simp only at hk
    cases hk
    obtain ⟨hne, hall⟩ := kvSearch_key _ _ _ hg
    intro hcon
    have hs : stripList g1 = g1 :=
      stripList_of_no_ws g1 (fun x hx => wordChar_not_ws x (hall x hx))
    rw [show pyStrip ⟨g1⟩ = ⟨stripList g1⟩ from rfl, hs] at hcon
    exact hne (congrArg String.data hcon)
  · simp at hk

theorem extractKeyValue_none_pair (text : String)
    (hk : (extractKeyValue text).1 = none) : (extractKeyValue text).2 = none := by
  unfold extractKeyValue at hk ⊢
  split at hk
  · simp at hk
  · rfl

theorem filledInB_eq_join (m : EntityMap) (k : String) :
    filledInB m k = truthyOpt (Option.join (eget m k)) := by
  unfold filledInB
  cases eget m k with
  | none => rfl
  | some ov => cases ov <;> rfl

theorem fillSlot_wf (text : String) (ctx : Ctx) (slot : String)
    (h : (ctx.entities.map Prod.fst).Nodup) :
    ((fillSlot text ctx slot).map Prod.fst).Nodup := by
  unfold fillSlot
  split
  · split
    · exact alSet_wf _ _ _ h
    · split
      · exact alSet_wf _ _ _ h
      · exact h
  · split
    · split
      · exact alSet_wf _ _ _ h
      · exact alSet_wf _ _ _ h
    · exact alSet_wf _ _ _ h

theorem fillSlot_generic (text : String) (ctx : Ctx) (slot : String)
    (hlearn : ctx.intent ≠ "learn_knowledge") (hne : pyStrip text ≠ "") :
    ∃ v, v ≠ "" ∧ fillSlot text ctx slot = alSet ctx.entities slot (some v) := by
  unfold fillSlot
  rw [if_neg hlearn]
  split
  · rename_i v hv
    split
    · rename_i hvne
      exact ⟨v, hvne, rfl⟩
    · exact ⟨pyStrip text, hne, rfl⟩
  · exact ⟨pyStrip text, hne, rfl⟩

theorem followup_store (user : String) (st : BotState) (ctx : Ctx)
    (E : EntityMap) (hstored : ctxGet st user = some ctx) :
    ctxGet (cmUpdateEntities user E (cmSetCtxEntities user E st)) user =
      some { ctx with entities := dictUpdate E E,
                      missing := ctx.missing.filter (fun e => !filledInB E e) } ∧
    (∀ u', u' ≠ user →
      ctxGet (cmUpdateEntities user E (cmSetCtxEntities user E st)) u' =
        ctxGet st u') := by
  have h1 : ctxGet (cmSetCtxEntities user E st) user =
      some { ctx with entities := E } := by
    rw [ctxGet_setCtxEntities, hstored]
    simp
  constructor
  · rw [ctxGet_update, h1]
    simp
  · intro u' hu
    rw [ctxGet_update, h1]
    simp only [if_neg hu]
    rw [ctxGet_setCtxEntities, hstored]
    simp only [if_neg hu]

theorem handleFollowup_cons_more (actions : List BaseAction) (st : BotState)
    (user text : String) (ctx : Ctx) (slot : String) (rest : List String)
    (m : String) (ms : List String)
    (hm : ctx.missing = slot :: rest)
    (hstored : ctxGet st user = some ctx)
    (hf : (slot :: rest).filter
      (fun e => !filledInB (fillSlot text ctx slot) e) = m :: ms) :
    handleFollowup actions st user text ctx =
      (.ok (promptForEntity m),
       cmUpdateEntities user (fillSlot text ctx slot)
         (cmSetCtxEntities user (fillSlot text ctx slot) st)) := by
  have hst3 := (followup_store user st ctx (fillSlot text ctx slot) hstored).1
  rw [hm] at hst3
  unfold handleFollowup
  rw [hm]
  simp [hst3, hf]

theorem handleFollowup_cons_done (actions : List BaseAction) (st : BotState)
    (user text : String) (ctx : Ctx) (slot : String) (rest : List String)
    (hm : ctx.missing = slot :: rest)
    (hstored : ctxGet st user = some ctx)
    (hf : (slot :: rest).filter
      (fun e => !filledInB (fillSlot text ctx slot) e) = [])
    (hlearn : ctx.intent ≠ "learn_knowledge") :
    handleFollowup actions st user text ctx =
      (.ok (route actions ctx.intent (fillSlot text ctx slot)),
       cmClear user (cmUpdateEntities user (fillSlot text ctx slot)
         (cmSetCtxEntities user (fillSlot text ctx slot) st))) := by
  have hst3 := (followup_store user st ctx (fillSlot text ctx slot) hstored).1
  rw [hm] at hst3
  unfold handleFollowup
  rw [hm]
  simp [hst3, hf, hlearn]

theorem handleFollowup_cons_done_ctx (actions : List BaseAction) (st : BotState)
    (user text : String) (ctx : Ctx) (slot : String) (rest : List String)
    (hm : ctx.missing = slot :: rest)
    (hstored : ctxGet st user = some ctx)
    (hf : (slot :: rest).filter
      (fun e => !filledInB (fillSlot text ctx slot) e) = []) :
    ∀ u, ctxGet (handleFollowup actions st user text ctx).2 u =
      ctxGet (cmClear user (cmUpdateEntities user (fillSlot text ctx slot)
        (cmSetCtxEntities user (fillSlot text ctx slot) st))) u := by
  intro u
  have hst3 := (followup_store user st ctx (fillSlot text ctx slot) hstored).1
  rw [hm] at hst3
  unfold handleFollowup
  rw [hm]
  simp only [hst3, hf, Option.map_some']
  split
  · split
    · rfl
    · rfl
  · rfl

theorem handleNewMessage_frame (actions : List BaseAction) (now : Nat)
    (st : BotState) (user text : String) (u' : String) (hu : u' ≠ user) :
    ctxGet (handleNewMessage actions now st user text).2 u' = ctxGet st u' := by
  unfold handleNewMessage
  simp only []
  split
  · rfl
  · split
    · split
      · rfl
      · rfl
    · split
      · split
        · rw [ctxGet_setPending]
          simp only [if_neg hu]
        · split
          · rw [ctxGet_setPending]
            simp only [if_neg hu]
          · rfl
      · split
        · rw [ctxGet_setPending]
          simp only [if_neg hu]
        · rfl

theorem handleNewMessage_self (actions : List BaseAction) (now : Nat)
    (st : BotState) (user text : String) :
    ctxGet (handleNewMessage actions now st user text).2 user = ctxGet st user ∨
    (∃ c, ctxGet (handleNewMessage actions now st user text).2 user = some c ∧
      ctxWF c) := by
  unfold handleNewMessage
  simp only []
  split
  · exact Or.inl rfl
  · rename_i intent hdet
    split
    · split
      · exact Or.inl rfl
      · exact Or.inl rfl
    · split
      · -- learn_knowledge branch
        rename_i hlearn
        split
        · -- key falsy: Collecting with missing = [key, value]
          rename_i hkey
          refine Or.inr ⟨⟨user, intent, extract_entities text intent,
            ["key", "value"], now⟩, ?_, ?_⟩
          · rw [ctxGet_setPending]
            simp
          · constructor
            · exact extract_entities_wf text intent
            · intro e he
              rcases List.mem_cons.mp he with h1 | h2
              · subst h1
                rw [filledInB_eq_join]
                simpa using hkey
              · rcases List.mem_cons.mp h2 with h1 | h1
                · subst h1
                  rw [hlearn] at hkey ⊢
                  rw [filledInB_eq_join]
                  rw [eget_extract_learn_value]
                  cases hkv : (extractKeyValue text).1 with
                  | none =>
                      rw [extractKeyValue_none_pair text hkv]
                      rfl
                  | some k =>
                      exfalso
                      have hkne := extractKeyValue_key_truthy text k hkv
                      rw [eget_extract_learn_key, hkv] at hkey
                      simp [truthyOpt, hkne] at hkey
                · cases h1
        · split
          · -- value falsy: Collecting with missing = [value]
            rename_i hval
            refine Or.inr ⟨⟨user, intent, extract_entities text intent,
              ["value"], now⟩, ?_, ?_⟩
            · rw [ctxGet_setPending]
              simp
            · constructor
              · exact extract_entities_wf text intent
              · intro e he
                rcases List.mem_cons.mp he with h1 | h1
                · subst h1
                  rw [filledInB_eq_join]
                  simpa using hval
                · cases h1
          · exact Or.inl rfl
      · -- generic intent
        split
        · rename_i m rest hmiss
          refine Or.inr ⟨⟨user, intent, extract_entities text intent,
            getMissingEntities (getRequiredEntities actions intent)
              (extract_entities text intent), now⟩, ?_, ?_⟩
          · rw [ctxGet_setPending]
            simp
          · constructor
            · exact extract_entities_wf text intent
            · intro e he
              have := List.of_mem_filter he
              simpa using this
        · exact Or.inl rfl

theorem handleFollowup_nil (actions : List BaseAction) (st : BotState)
    (user text : String) (ctx : Ctx) (hm : ctx.missing = []) :
    handleFollowup actions st user text ctx =
      (.ok (route actions ctx.intent ctx.entities), cmClear user st) := by
  unfold handleFollowup
  rw [hm]

theorem handleFollowup_frame (actions : List BaseAction) (st : BotState)
    (user text : String) (ctx : Ctx) (u' : String) (hu : u' ≠ user)
    (hstored : ctxGet st user = some ctx) :
    ctxGet (handleFollowup actions st user text ctx).2 u' = ctxGet st u' := by
  cases hm : ctx.missing with
  | nil =>
      rw [handleFollowup_nil actions st user text ctx hm]
      rw [show (Except.ok (route actions ctx.intent ctx.entities),
        cmClear user st).2 = cmClear user st from rfl, ctxGet_clear]
      simp only [if_neg hu]
  | cons slot rest =>
      cases hf : (slot :: rest).filter
          (fun e => !filledInB (fillSlot text ctx slot) e) with
      | cons m ms =>
          rw [handleFollowup_cons_more actions st user text ctx slot rest m ms
            hm hstored hf]
          exact (followup_store user st ctx (fillSlot text ctx slot) hstored).2 u' hu
      | nil =>
          rw [handleFollowup_cons_done_ctx actions st user text ctx slot rest
            hm hstored hf u', ctxGet_clear]
          simp only [if_neg hu]
          exact (followup_store user st ctx (fillSlot text ctx slot) hstored).2 u' hu

theorem handleFollowup_self (actions : List BaseAction) (st : BotState)
    (user text : String) (ctx : Ctx)
    (hstored : ctxGet st user = some ctx) (hwfc : ctxWF ctx) :
    ctxGet (handleFollowup actions st user text ctx).2 user = none ∨
    (∃ c, ctxGet (handleFollowup actions st user text ctx).2 user = some c ∧
      ctxWF c) := by
  cases hm : ctx.missing with
  | nil =>
      left
      rw [handleFollowup_nil actions st user text ctx hm]
      rw [show (Except.ok (route actions ctx.intent ctx.entities),
        cmClear user st).2 = cmClear user st from rfl, ctxGet_clear]
      simp
  | cons slot rest =>
      have hwfE : ((fillSlot text ctx slot).map Prod.fst).Nodup :=
        fillSlot_wf _ _ _ hwfc.1
      cases hf : (slot :: rest).filter
          (fun e => !filledInB (fillSlot text ctx slot) e) with
      | nil =>
          left
          rw [handleFollowup_cons_done_ctx actions st user text ctx slot rest
            hm hstored hf user, ctxGet_clear]
          simp
      | cons m ms =>
          right
          refine ⟨{ ctx with
              entities := dictUpdate (fillSlot text ctx slot) (fillSlot text ctx slot),
              missing := ctx.missing.filter
                (fun e => !filledInB (fillSlot text ctx slot) e) }, ?_, ?_, ?_⟩
          · rw [handleFollowup_cons_more actions st user text ctx slot rest m ms
              hm hstored hf]
            exact (followup_store user st ctx (fillSlot text ctx slot) hstored).1
          · exact dictUpdate_wf _ _ hwfE
          · intro e he
            simp only [hm] at he
            have hpred := List.of_mem_filter he
            have hfalse : filledInB (fillSlot text ctx slot) e = false := by
              simpa using hpred
            simp only []
            rw [filledInB_dictUpdate_self _ _ hwfE]
            exact hfalse

theorem getPending_none (u : String) (now timeout : Nat) (st : BotState)
    (h : ctxGet st u = none) : cmGetPending u now timeout st = (none, st) := by
  unfold cmGetPending
  rw [h]

theorem getPending_expired (u : String) (now timeout : Nat) (st : BotState)
    (c : Ctx) (h : ctxGet st u = some c) (he : isExpired c now timeout = true) :
    cmGetPending u now timeout st = (none, cmClear u st) := by
  unfold cmGetPending
  rw [h]
  simp [he]

theorem getPending_live (u : String) (now timeout : Nat) (st : BotState)
    (c : Ctx) (h : ctxGet st u = some c) (he : isExpired c now timeout = false) :
    cmGetPending u now timeout st = (some c, st) := by
  unfold cmGetPending
  rw [h]
  simp [he]

theorem processMessage_frame (actions : List BaseAction) (timeout now : Nat)
    (st : BotState) (user text : String) (u' : String) (hu : u' ≠ user) :
    ctxGet (processMessage actions timeout now st user text).2 u' =
      ctxGet st u' := by
  unfold processMessage
  split
  · rfl
  · cases hc : ctxGet st user with
    | none =>
        rw [getPending_none user now timeout st hc]
        exact handleNewMessage_frame actions now st user (pyStrip text) u' hu
    | some c =>
        cases he : isExpired c now timeout with
        | true =>
            rw [getPending_expired user now timeout st c hc he]
            calc ctxGet (handleNewMessage actions now (cmClear user st) user
                  (pyStrip text)).2 u'
                = ctxGet (cmClear user st) u' :=
                  handleNewMessage_frame actions now (cmClear user st) user
                    (pyStrip text) u' hu
              _ = ctxGet st u' := by rw [ctxGet_clear]; simp only [if_neg hu]
        | false =>
            rw [getPending_live user now timeout st c hc he]
            exact handleFollowup_frame actions st user (pyStrip text) c u' hu hc

theorem processMessage_wf (actions : List BaseAction) (timeout now : Nat)
    (st : BotState) (user text : String)
    (hwf : ∀ u c, ctxGet st u = some c → ctxWF c) :
    ∀ u c, ctxGet (processMessage actions timeout now st user text).2 u =
      some c → ctxWF c := by
  intro u c hlook
  by_cases hu : u = user
  · subst hu
    revert hlook
    unfold processMessage
    split
    · intro hlook
      exact hwf u c hlook
    · cases hc : ctxGet st u with
      | none =>
          rw [getPending_none u now timeout st hc]
          intro hlook
          rcases handleNewMessage_self actions now st u (pyStrip text) with
            hsame | ⟨c', hc', hwfc'⟩
          · rw [hsame, hc] at hlook
            cases hlook
          · rw [hc'] at hlook
            cases hlook
            exact hwfc'
      | some c0 =>
          cases he : isExpired c0 now timeout with
          | true =>
              rw [getPending_expired u now timeout st c0 hc he]
              intro hlook
              rcases handleNewMessage_self actions now (cmClear u st) u
                  (pyStrip text) with hsame | ⟨c', hc', hwfc'⟩
              · rw [hsame, ctxGet_clear] at hlook
                simp at hlook
              · rw [hc'] at hlook
                cases hlook
                exact hwfc'
          | false =>
              rw [getPending_live u now timeout st c0 hc he]
              intro hlook
              rcases handleFollowup_self actions st u (pyStrip text) c0 hc
                  (hwf u c0 hc) with hnone | ⟨c', hc', hwfc'⟩
              · rw [hnone] at hlook
                cases hlook
              · rw [hc'] at hlook
                cases hlook
                exact hwfc'
  · rw [processMessage_frame actions timeout now st user text u hu] at hlook
    exact hwf u c hlook

/-- C1: the spec demands that no input text, however malformed, causes an
unhandled failure to escape the orchestrator. The code violates this: for
the ask_knowledge input "What is?" the question-key extractor yields
nothing, `extract_entities` stores the key as present-but-`None`, the
`entities.get("key", text)` default is therefore not taken, and
`KnowledgeEngine.query(None)` raises `AttributeError` out of
`process_message`. -/
theorem C1_crash_on_empty_question_key :
    detect_intent "What is?" = some "ask_knowledge" ∧
    extractQuestionKey "What is?" = none ∧
    processMessage [weatherAction "sunny" 20] 5 0 ⟨[], []⟩ "u" "What is?" =
      (.error "AttributeError: NoneType has no attribute lower", ⟨[], []⟩) :=
  ⟨rfl, rfl, rfl⟩

/-- C2: on the Idle path the spec says an ask_knowledge message whose
extraction yields no key is answered by querying the KnowledgeStore with
the raw text. The code instead passes the present-but-`None` key to
`query`, which raises `AttributeError`: the raw-text fallback written as
`entities.get("key", text)` is dead code because the key is always
present. The input "tell me about" is classified ask_knowledge, its
extraction yields no key, and processing it errors instead of responding. -/
theorem C2_ask_raw_text_fallback_dead :
    detect_intent "tell me about" = some "ask_knowledge" ∧
    extractQuestionKey "tell me about" = none ∧
    processMessage [weatherAction "sunny" 20] 5 0 ⟨[("france", "Paris")], []⟩
      "u" "tell me about" =
      (.error "AttributeError: NoneType has no attribute lower",
       ⟨[("france", "Paris")], []⟩) :=
  ⟨rfl, rfl, rfl⟩

/-- C3 counterexample: the claim says that when the get_weather extractor
finds no location the `location` key is absent from the result. On the
input "zzz" the extractor finds nothing, yet the key is present (bound to
`None`), so the claim as stated is false. -/
theorem C3_cex_location_key_present :
    extractLocation "zzz" = none ∧
    eget (extract_entities "zzz" "get_weather") "location" ≠ none := by
  refine ⟨rfl, ?_⟩
  decide

/-- C3 amended: for every text from which the get_weather extractor can find
no location, `extract_entities` returns a map in which the `location` key is
present but bound to `None` (never a non-empty string); downstream,
`get_missing_entities` treats this the same as an absent key. -/
theorem C3_location_key_present_with_none (text : String)
    (h : extractLocation text = none) :
    eget (extract_entities text "get_weather") "location" = some none := by
  have e : extract_entities text "get_weather" =
      [("location", extractLocation text)] := rfl
  rw [e, h]
  rfl

/-- C3 witness: the amended statement evaluated at the concrete input "zzz". -/
theorem C3_witness :
    extractLocation "zzz" = none ∧
    eget (extract_entities "zzz" "get_weather") "location" = some none :=
  ⟨rfl, C3_location_key_present_with_none "zzz" rfl⟩

/-- C4: for every stored conversation state, `get_pending` returns the state
exactly when `now - created_at` does not exceed the timeout; an expired
state is deleted and none is returned; and `update_entities` (for any user)
never changes the stored timestamp, so expiry is measured from creation
time only. -/
theorem C4_expiry_from_creation_only (st : BotState) (user : String)
    (now timeout : Nat) (ctx : Ctx) (h : ctxGet st user = some ctx) :
    (now - ctx.timestamp ≤ timeout →
      cmGetPending user now timeout st = (some ctx, st)) ∧
    (now - ctx.timestamp > timeout →
      cmGetPending user now timeout st = (none, cmClear user st) ∧
      ctxGet (cmClear user st) user = none) ∧
    (∀ (u' : String) (newE : EntityMap),
      (ctxGet (cmUpdateEntities u' newE st) user).map Ctx.timestamp =
        some ctx.timestamp) := by
  refine ⟨?_, ?_, ?_⟩
  · intro hle
    unfold cmGetPending
    rw [h]
    simp [isExpired, Nat.not_lt.mpr hle]
  · intro hgt
    constructor
    · unfold cmGetPending
      rw [h]
      simp [isExpired, hgt]
    · rw [ctxGet_clear, if_pos rfl]
  · intro u' newE
    rw [ctxGet_update]
    cases hc : ctxGet st u' with
    | none => simp [h]
    | some c =>
        by_cases hu : user = u'
        · subst hu
          rw [hc] at h
          cases h
          simp
        · simp [hu, h]

/-- C4 witness: a state created at time 10 with timeout 5 is returned intact
at time 12, and an update never touches its timestamp. -/
theorem C4_witness :
    cmGetPending "u" 12 5
        ⟨[], [("u", ⟨"u", "get_weather", [], ["location"], 10⟩)]⟩ =
      (some ⟨"u", "get_weather", [], ["location"], 10⟩,
       ⟨[], [("u", ⟨"u", "get_weather", [], ["location"], 10⟩)]⟩) ∧
    (ctxGet (cmUpdateEntities "u" [("location", some "x")]
        ⟨[], [("u", ⟨"u", "get_weather", [], ["location"], 10⟩)]⟩) "u").map
      Ctx.timestamp = some 10 := by
  constructor
  · exact (C4_expiry_from_creation_only
      ⟨[], [("u", ⟨"u", "get_weather", [], ["location"], 10⟩)]⟩ "u" 12 5
      ⟨"u", "get_weather", [], ["location"], 10⟩ rfl).1 (by decide)
  · exact (C4_expiry_from_creation_only
      ⟨[], [("u", ⟨"u", "get_weather", [], ["location"], 10⟩)]⟩ "u" 12 5
      ⟨"u", "get_weather", [], ["location"], 10⟩ rfl).2.2 "u"
      [("location", some "x")]

/-- C6: `route` executes the first registered action (registration order)
whose predicate accepts the intent; an exception raised by that execution is
converted to the apologetic message at the router boundary instead of
propagating; and when no registered action accepts the intent, `route`
returns the fixed no-action message. -/
theorem C6_route_first_match_and_error_boundary (pre post : List BaseAction)
    (a : BaseAction) (intent : String) (params : EntityMap)
    (hpre : ∀ b ∈ pre, b.can_handle intent = false)
    (ha : a.can_handle intent = true) :
    (route (pre ++ a :: post) intent params =
      match a.execute params with
      | .ok r => r
      | .error e => "Sorry, an error occurred: " ++ e) ∧
    (∀ actions : List BaseAction,
      (∀ b ∈ actions, b.can_handle intent = false) →
      route actions intent params =
        "Sorry, I don" ++ q39 ++ "t have an action for " ++ q39 ++ intent
          ++ q39 ++ ".") := by
  constructor
  · unfold route
    rw [find?_first_accepting pre a post intent hpre ha]
  · intro actions hall
    have hfind : actions.find? (fun b => b.can_handle intent) = none :=
      List.find?_eq_none.mpr (fun x hx => by simp [hall x hx])
    unfold route
    rw [hfind]

/-- C6 witness: a failing action placed after a non-matching one is executed
and its exception is converted to the apologetic message. -/
theorem C6_witness :
    route [weatherAction "sunny" 20,
      ⟨fun i => i = "dance", [], fun _ => .error "boom"⟩] "dance" [] =
      "Sorry, an error occurred: boom" := by
  have h := (C6_route_first_match_and_error_boundary [weatherAction "sunny" 20]
    [] ⟨fun i => i = "dance", [], fun _ => .error "boom"⟩ "dance" []
    (by intro b hb; simp at hb; subst hb; rfl) (by rfl)).1
  simpa using h

/-- C8: every text containing the assignment marker `=` is classified
`learn_knowledge`, regardless of any other matching intent patterns; the
only earlier check is that empty or whitespace-only text yields none, and a
text containing `=` is never whitespace-only. -/
theorem C8_assignment_marker_forces_learn (text : String)
    (h : '=' ∈ text.data) : detect_intent text = some "learn_knowledge" := by
  have hlow : pyLowerChar '=' = '=' := by decide
  have h1 : '=' ∈ (lowerStr text).data := by
    have h2 := List.mem_map_of_mem pyLowerChar h
    rw [hlow] at h2
    exact h2
  have h2 : '=' ∈ (pyStrip (lowerStr text)).data :=
    mem_stripList _ _ h1 (by decide)
  have h3 : ¬ (pyStrip (lowerStr text)).data = [] := List.ne_nil_of_mem h2
  have h4 : (pyStrip (lowerStr text)).data.contains '=' = true :=
    List.elem_eq_true_of_mem h2
  unfold detect_intent
  simp only [h4, if_true, if_neg h3, if_pos]

/-- C8 witness: a text that also matches get_weather and ask_knowledge
patterns is still classified learn_knowledge because of the marker. -/
theorem C8_witness :
    detect_intent "what is the weather = x" = some "learn_knowledge" :=
  C8_assignment_marker_forces_learn "what is the weather = x" (by decide)

/-- C9 counterexample: the claim says that after `add(key, v1)` then
`add(key, v2)`, `query(key)` returns `v2`. The store trims values, so for
`v2 = " 5 "` the query returns `"5"`, not `v2`. -/
theorem C9_cex_query_returns_trimmed_value :
    kquery (add_knowledge (add_knowledge [] "k" "x") "k" " 5 ") "k" = "5" ∧
    ("5" : String) ≠ " 5 " := by
  exact ⟨rfl, by decide⟩

/-- C9 amended: the concrete round trip `add("x","5")` then `query("x")`
returns `"5"`; and after two successive adds on the same key, `query(key)`
returns the trimmed `v2` (equal to `v2` whenever `v2` carries no surrounding
whitespace): the last write wins. -/
theorem C9_round_trip_and_last_write_wins :
    kquery (add_knowledge [] "x" "5") "x" = "5" ∧
    ∀ (kb : List (String × String)) (key v1 v2 : String),
      kquery (add_knowledge (add_knowledge kb key v1) key v2) key =
        pyStrip v2 := by
  constructor
  · rfl
  · intro kb key v1 v2
    unfold kquery add_knowledge
    have h1 : alGet (alSet (alSet kb (pyStrip (lowerStr key)) (pyStrip v1))
        (pyStrip (lowerStr key)) (pyStrip v2)) (pyStrip (lowerStr key)) =
        some (pyStrip v2) := by
      rw [alGet_alSet, if_pos rfl]
    simp only [h1]

/-- C10: per-user isolation. Processing any message for `user` leaves the
stored conversation state of every other user unchanged: every context
read, write, update and deletion in the orchestrator is keyed by `user`. -/
theorem C10_per_user_isolation (actions : List BaseAction) (timeout now : Nat)
    (st : BotState) (user text u' : String) (hu : u' ≠ user) :
    ctxGet (processMessage actions timeout now st user text).2 u' =
      ctxGet st u' :=
  processMessage_frame actions timeout now st user text u' hu

/-- C10 witness: processing a weather message for user "u" leaves the
pending conversation of user "v" untouched. -/
theorem C10_witness :
    ctxGet (processMessage [weatherAction "sunny" 20] 5 0
        ⟨[], [("v", ⟨"v", "get_weather", [], ["location"], 0⟩)]⟩
        "u" "weather").2 "v" =
      ctxGet ⟨[], [("v", ⟨"v", "get_weather", [], ["location"], 0⟩)]⟩ "v" :=
  C10_per_user_isolation [weatherAction "sunny" 20] 5 0
    ⟨[], [("v", ⟨"v", "get_weather", [], ["location"], 0⟩)]⟩
    "u" "weather" "v" (by decide)

/-- C5: (1) in every state the orchestrator can reach, every stored
conversation context satisfies the invariant that each name in `missing` is
absent or falsy in `entities` (the invariant is established by every
`set_pending` call site and preserved by every follow-up update); and
(2) `update_entities` merges the new entities with later values winning on
key collision and removes from `missing` exactly the names that the new
entities fill with a truthy value. -/
theorem C5_missing_invariant_and_update_semantics (actions : List BaseAction)
    (timeout : Nat) :
    (∀ st, Reach actions timeout st →
      ∀ u c, ctxGet st u = some c →
        ∀ e ∈ c.missing, filledInB c.entities e = false) ∧
    (∀ (st : BotState) (user : String) (newE : EntityMap) (c : Ctx),
      ctxGet st user = some c →
      ctxGet (cmUpdateEntities user newE st) user =
        some { c with entities := dictUpdate c.entities newE,
                      missing := c.missing.filter (fun e => !filledInB newE e) } ∧
      ((newE.map Prod.fst).Nodup → ∀ k,
        eget (dictUpdate c.entities newE) k =
          match eget newE k with
          | some v => some v
          | none => eget c.entities k)) := by
  constructor
  · have main : ∀ st, Reach actions timeout st →
        ∀ u c, ctxGet st u = some c → ctxWF c := by
      intro st hr
      induction hr with
      | init kb =>
          intro u c hc
          simp [ctxGet, alGet, List.find?] at hc
      | step st now user text hprev ih =>
          exact processMessage_wf actions timeout now st user text ih
    exact fun st hr u c hc => (main st hr u c hc).2
  · intro st user newE c hc
    constructor
    · rw [ctxGet_update, hc]
      simp
    · intro hnd k
      exact eget_dictUpdate newE c.entities k hnd

/-- C5 witness: after one weather message the stored context satisfies the
invariant, and a concrete `update_entities` merges the location and removes
it from `missing`. -/
theorem C5_witness :
    filledInB [("location", none)] "location" = false ∧
    ctxGet (cmUpdateEntities "u" [("location", some "Tokyo")]
        ⟨[], [("u", ⟨"u", "get_weather", [("location", none)],
          ["location"], 0⟩)]⟩) "u" =
      some ⟨"u", "get_weather", [("location", some "Tokyo")], [], 0⟩ := by
  constructor
  · exact (C5_missing_invariant_and_update_semantics
      [weatherAction "sunny" 20] 5).1
      (processMessage [weatherAction "sunny" 20] 5 0 ⟨[], []⟩ "u" "weather").2
      (Reach.step ⟨[], []⟩ 0 "u" "weather" (Reach.init []))
      "u" ⟨"u", "get_weather", [("location", none)], ["location"], 0⟩ rfl
      "location" (by decide)
  · have h := ((C5_missing_invariant_and_update_semantics
      [weatherAction "sunny" 20] 5).2
      ⟨[], [("u", ⟨"u", "get_weather", [("location", none)],
        ["location"], 0⟩)]⟩
      "u" [("location", some "Tokyo")]
      ⟨"u", "get_weather", [("location", none)], ["location"], 0⟩ rfl).1
    rw [h]
    rfl

theorem dropWhile_head_false {α : Type} (p : α → Bool) (l : List α) (a : α)
    (t : List α) (h : l.dropWhile p = a :: t) : p a = false := by
  induction l with
  | nil => cases h
  | cons b rest ih =>
      rw [List.dropWhile_cons] at h
      by_cases hb : p b = true
      · rw [if_pos hb] at h
        exact ih h
      · rw [if_neg hb] at h
        cases h
        exact Bool.eq_false_iff.mpr hb

theorem dropWhile_idem {α : Type} (p : α → Bool) (l : List α) :
    (l.dropWhile p).dropWhile p = l.dropWhile p := by
  cases h : l.dropWhile p with
  | nil => rfl
  | cons a t =>
      rw [List.dropWhile_cons,
        if_neg (by simp [dropWhile_head_false p l a t h])]

theorem stripList_head_false (l : List Char) (a : Char) (t : List Char)
    (h : stripList l = a :: t) : isWs a = false := by
  have key : ∃ suf, l.dropWhile isWs = (a :: t) ++ suf := by
    refine ⟨((l.dropWhile isWs).reverse.takeWhile isWs).reverse, ?_⟩
    calc l.dropWhile isWs
        = (l.dropWhile isWs).reverse.reverse := (List.reverse_reverse _).symm
      _ = ((l.dropWhile isWs).reverse.takeWhile isWs ++
            (l.dropWhile isWs).reverse.dropWhile isWs).reverse := by
          rw [List.takeWhile_append_dropWhile]
      _ = ((l.dropWhile isWs).reverse.dropWhile isWs).reverse ++
            ((l.dropWhile isWs).reverse.takeWhile isWs).reverse := by
          rw [List.reverse_append]
      _ = (a :: t) ++ ((l.dropWhile isWs).reverse.takeWhile isWs).reverse := by
          rw [show ((l.dropWhile isWs).reverse.dropWhile isWs).reverse =
            stripList l from rfl, h]
  obtain ⟨suf, hsuf⟩ := key
  exact dropWhile_head_false isWs l a (t ++ suf) (by rw [hsuf]; simp)

theorem trimLeft_stripList (l : List Char) :
    (stripList l).dropWhile isWs = stripList l := by
  cases h : stripList l with
  | nil => rfl
  | cons a t =>
      rw [List.dropWhile_cons,
        if_neg (by simp [stripList_head_false l a t h])]

theorem trimRight_stripList (l : List Char) :
    ((stripList l).reverse.dropWhile isWs).reverse = stripList l := by
  conv_lhs => rw [show stripList l =
    ((l.dropWhile isWs).reverse.dropWhile isWs).reverse from rfl]
  rw [List.reverse_reverse, dropWhile_idem]
  rfl

theorem stripList_idem (l : List Char) :
    stripList (stripList l) = stripList l := by
  show (((stripList l).dropWhile isWs).reverse.dropWhile isWs).reverse =
    stripList l
  rw [trimLeft_stripList, trimRight_stripList]

theorem pyStrip_idem (s : String) : pyStrip (pyStrip s) = pyStrip s :=
  congrArg String.mk (stripList_idem s.data)

theorem filter_eq_self_of_all {α : Type} (p : α → Bool) (l : List α)
    (h : ∀ a ∈ l, p a = true) : l.filter p = l := by
  induction l with
  | nil => rfl
  | cons a rest ih =>
      rw [List.filter_cons, if_pos (by simp [h a (by simp)])]
      rw [ih (fun x hx => h x (by simp [hx]))]

theorem getLast?_cons_cons {α : Type} (a b : α) (l : List α) :
    (a :: b :: l).getLast? = (b :: l).getLast? := by
  simp [List.getLast?]

theorem processTurns_length (actions : List BaseAction) (timeout : Nat)
    (user : String) : ∀ (turns : List (Nat × String)) (st : BotState),
    (processTurns actions timeout user st turns).1.length = turns.length := by
  intro turns
  induction turns with
  | nil => intro st; rfl
  | cons p rest ih =>
      intro st
      obtain ⟨n, t⟩ := p
      unfold processTurns
      simp only [List.length_cons]
      rw [ih]

theorem followup_filter_rest (ctx : Ctx) (slot : String) (rest : List String)
    (E : EntityMap) (v : String) (hv : v ≠ "")
    (hE : E = alSet ctx.entities slot (some v))
    (hnd : (slot :: rest).Nodup)
    (hunf : ∀ e ∈ rest, filledInB ctx.entities e = false) :
    (slot :: rest).filter (fun e => !filledInB E e) = rest := by
  have hslot : filledInB E slot = true := by
    unfold filledInB
    rw [hE, eget_alSet, if_pos rfl]
    simpa [truthyOpt] using hv
  have hrest : ∀ e ∈ rest, filledInB E e = false := by
    intro e he
    have hne : ¬ e = slot := by
      intro hh
      subst hh
      exact (List.nodup_cons.mp hnd).1 he
    unfold filledInB
    rw [hE, eget_alSet, if_neg hne]
    exact hunf e he
  rw [List.filter_cons, if_neg (by simp [hslot])]
  exact filter_eq_self_of_all _ rest (fun e he => by simp [hrest e he])

theorem followup_run (actions : List BaseAction) (timeout : Nat)
    (user : String) :
    ∀ (ms : List String) (turns : List (Nat × String)) (st : BotState)
      (ctx : Ctx),
      ctxGet st user = some ctx →
      ctx.intent ≠ "learn_knowledge" →
      ctx.missing = ms → ms ≠ [] → ms.Nodup →
      (ctx.entities.map Prod.fst).Nodup →
      (∀ e ∈ ms, filledInB ctx.entities e = false) →
      turns.length = ms.length →
      (∀ p ∈ turns, pyStrip p.2 ≠ "" ∧ p.1 - ctx.timestamp ≤ timeout) →
      ctxGet (processTurns actions timeout user st turns).2 user = none ∧
      (∃ ents, (processTurns actions timeout user st turns).1.getLast? =
        some (.ok (route actions ctx.intent ents))) ∧
      (∀ k, k < turns.length →
        ∃ c, ctxGet (processTurns actions timeout user st
            (turns.take k)).2 user = some c ∧
          c.missing = ms.drop k ∧ c.intent = ctx.intent) := by
  intro ms
  induction ms with
  | nil =>
      intro turns st ctx _ _ _ hne
      exact absurd rfl hne
  | cons slot rest ih =>
      intro turns st ctx hstored hlearn hm hne hnd hent hunf hlen hturns
      cases turns with
      | nil => simp at hlen
      | cons p turns1 =>
          obtain ⟨n, t⟩ := p
          have hpt := hturns (n, t) (by simp)
          have htne : pyStrip t ≠ "" := hpt.1
          have htne2 : pyStrip (pyStrip t) ≠ "" := by
            rw [pyStrip_idem]
            exact htne
          have hexp : isExpired ctx n timeout = false := by
            unfold isExpired
            simpa [Nat.not_lt] using hpt.2
          obtain ⟨v, hv, hE⟩ :=
            fillSlot_generic (pyStrip t) ctx slot hlearn htne2
          have hfilter : (slot :: rest).filter
              (fun e => !filledInB (fillSlot (pyStrip t) ctx slot) e) = rest :=
            followup_filter_rest ctx slot rest _ v hv hE hnd
              (fun e he => hunf e (by simp [he]))
          have hEwf : ((fillSlot (pyStrip t) ctx slot).map Prod.fst).Nodup := by
            rw [hE]
            exact alSet_wf _ _ _ hent
          have hlen1 : turns1.length = rest.length := by
            simpa using hlen
          cases rest with
          | nil =>
              -- final turn: action executes, state cleared
              have hdone := handleFollowup_cons_done actions st user
                (pyStrip t) ctx slot [] hm hstored hfilter hlearn
              have hstep : processMessage actions timeout n st user t =
                  (.ok (route actions ctx.intent
                    (fillSlot (pyStrip t) ctx slot)),
                   cmClear user (cmUpdateEntities user
                     (fillSlot (pyStrip t) ctx slot)
                     (cmSetCtxEntities user
                       (fillSlot (pyStrip t) ctx slot) st))) := by
                unfold processMessage
                rw [if_neg htne, getPending_live user n timeout st ctx
                  hstored hexp]
                exact hdone
              have hturns1 : turns1 = [] := by
                cases turns1 with
                | nil => rfl
                | cons q qs => simp at hlen1
              subst hturns1
              have hpt1 : processTurns actions timeout user st [(n, t)] =
                  ([(processMessage actions timeout n st user t).1],
                   (processMessage actions timeout n st user t).2) := rfl
              refine ⟨?_, ?_, ?_⟩
              · rw [hpt1, hstep]
                show ctxGet (cmClear user _) user = none
                rw [ctxGet_clear]
                simp
              · refine ⟨fillSlot (pyStrip t) ctx slot, ?_⟩
                rw [hpt1, hstep]
                rfl
              · intro k hk
                have hk0 : k = 0 := by simpa using hk
                subst hk0
                exact ⟨ctx, hstored, by simp [hm], rfl⟩
          | cons m rest1 =>
              -- intermediate turn: prompt for the next slot and recurse
              have hmore := handleFollowup_cons_more actions st user
                (pyStrip t) ctx slot (m :: rest1) m rest1 hm hstored hfilter
              have hstep : processMessage actions timeout n st user t =
                  (.ok (promptForEntity m),
                   cmUpdateEntities user (fillSlot (pyStrip t) ctx slot)
                     (cmSetCtxEntities user
                       (fillSlot (pyStrip t) ctx slot) st)) := by
                unfold processMessage
                rw [if_neg htne, getPending_live user n timeout st ctx
                  hstored hexp]
                exact hmore
              -- the successor stored context
              have hstore3 := (followup_store user st ctx
                (fillSlot (pyStrip t) ctx slot) hstored).1
              rw [hm, hfilter] at hstore3
              -- invoke the induction hypothesis on the successor state
              have hih := ih turns1
                (cmUpdateEntities user (fillSlot (pyStrip t) ctx slot)
                  (cmSetCtxEntities user (fillSlot (pyStrip t) ctx slot) st))
                { ctx with
                  entities := dictUpdate (fillSlot (pyStrip t) ctx slot)
                    (fillSlot (pyStrip t) ctx slot),
                  missing := m :: rest1 }
                hstore3 hlearn rfl (by simp) (List.nodup_cons.mp hnd).2
                (dictUpdate_wf _ _ hEwf)
                (by
                  intro e he
                  simp only []
                  rw [filledInB_dictUpdate_self _ _ hEwf]
                  have hne2 : ¬ e = slot := by
                    intro hh
                    subst hh
                    exact (List.nodup_cons.mp hnd).1 he
                  unfold filledInB
                  rw [hE, eget_alSet, if_neg hne2]
                  exact hunf e (by simp [he]))
                hlen1
                (by
                  intro q hq
                  exact hturns q (by simp [hq]))
              obtain ⟨hihA, ⟨ents, hihB⟩, hihC⟩ := hih
              have hpt1 : processTurns actions timeout user st ((n, t) :: turns1) =
                  ((processMessage actions timeout n st user t).1 ::
                    (processTurns actions timeout user
                      (processMessage actions timeout n st user t).2 turns1).1,
                   (processTurns actions timeout user
                      (processMessage actions timeout n st user t).2 turns1).2) := rfl
              refine ⟨?_, ?_, ?_⟩
              · rw [hpt1, hstep]
                exact hihA
              · refine ⟨ents, ?_⟩
                rw [hpt1, hstep]
                have hne1 : (processTurns actions timeout user
                    (cmUpdateEntities user (fillSlot (pyStrip t) ctx slot)
                      (cmSetCtxEntities user
                        (fillSlot (pyStrip t) ctx slot) st)) turns1).1 ≠ [] := by
                  intro hnil
                  have := processTurns_length actions timeout user turns1
                    (cmUpdateEntities user (fillSlot (pyStrip t) ctx slot)
                      (cmSetCtxEntities user
                        (fillSlot (pyStrip t) ctx slot) st))
                  rw [hnil] at this
                  simp [hlen1] at this
                cases hrs : (processTurns actions timeout user
                    (cmUpdateEntities user (fillSlot (pyStrip t) ctx slot)
                      (cmSetCtxEntities user
                        (fillSlot (pyStrip t) ctx slot) st)) turns1).1 with
                | nil => exact absurd hrs hne1
                | cons r0 rtail =>
                    rw [getLast?_cons_cons]
                    rw [hrs] at hihB
                    exact hihB
              · intro k hk
                cases k with
                | zero => exact ⟨ctx, hstored, by simp [hm], rfl⟩
                | succ j =>
                    have hj : j < turns1.length := by
                      simpa using hk
                    obtain ⟨c, hc1, hc2, hc3⟩ := hihC j hj
                    refine ⟨c, ?_, by simpa using hc2, hc3⟩
                    have htake : ((n, t) :: turns1).take (j + 1) =
                        (n, t) :: turns1.take j := rfl
                    rw [htake]
                    have hpt2 : processTurns actions timeout user st
                        ((n, t) :: turns1.take j) =
                        ((processMessage actions timeout n st user t).1 ::
                          (processTurns actions timeout user
                            (processMessage actions timeout n st user t).2
                            (turns1.take j)).1,
                         (processTurns actions timeout user
                            (processMessage actions timeout n st user t).2
                            (turns1.take j)).2) := rfl
                    rw [hpt2, hstep]
                    exact hc1

theorem handleNewMessage_generic (actions : List BaseAction) (now : Nat)
    (st : BotState) (user text intent : String) (r0 : String)
    (rs : List String)
    (hdet : detect_intent text = some intent)
    (hask : intent ≠ "ask_knowledge") (hlearn : intent ≠ "learn_knowledge")
    (hreq : getRequiredEntities actions intent = r0 :: rs)
    (hmiss : ∀ e ∈ getRequiredEntities actions intent,
      filledInB (extract_entities text intent) e = false) :
    handleNewMessage actions now st user text =
      (.ok (promptForEntity r0),
       cmSetPending user intent (extract_entities text intent)
         (r0 :: rs) now st) := by
  have hfil : getMissingEntities (getRequiredEntities actions intent)
      (extract_entities text intent) = r0 :: rs := by
    unfold getMissingEntities
    rw [filter_eq_self_of_all _ _ (fun e he => by simp [hmiss e he]), hreq]
  unfold handleNewMessage
  rw [hdet]
  simp [hask, hlearn, hfil]

/-- C7: for a message classified to a generic intent (neither ask_knowledge
nor learn_knowledge) whose required entities are all unsupplied, the
orchestrator enters Collecting with `missing` equal to the full required
list and prompts for its head; each of the `N` follow-up turns (non-empty
text, within the timeout measured from creation) fills `missing[0]` so that
after `k` turns exactly `required.drop k` is missing; after exactly `N`
turns the state is cleared (Idle) and the last response is the routed
action execution. -/
theorem C7_slot_filling_exactly_n_turns (actions : List BaseAction)
    (timeout now0 : Nat) (st0 : BotState) (user text0 intent : String)
    (turns : List (Nat × String))
    (hidle : ctxGet st0 user = none)
    (hne0 : pyStrip text0 ≠ "")
    (hdet : detect_intent (pyStrip text0) = some intent)
    (hask : intent ≠ "ask_knowledge")
    (hlearn : intent ≠ "learn_knowledge")
    (hmiss : ∀ e ∈ getRequiredEntities actions intent,
      filledInB (extract_entities (pyStrip text0) intent) e = false)
    (hN : getRequiredEntities actions intent ≠ [])
    (hnodup : (getRequiredEntities actions intent).Nodup)
    (hlen : turns.length = (getRequiredEntities actions intent).length)
    (hturns : ∀ p ∈ turns, pyStrip p.2 ≠ "" ∧ p.1 - now0 ≤ timeout) :
    (processMessage actions timeout now0 st0 user text0).1 =
      .ok (promptForEntity ((getRequiredEntities actions intent).headI)) ∧
    (∃ c, ctxGet (processMessage actions timeout now0 st0 user text0).2 user =
      some c ∧ c.intent = intent ∧
      c.missing = getRequiredEntities actions intent) ∧
    (∀ k, k < turns.length →
      ∃ c, ctxGet (processTurns actions timeout user
          (processMessage actions timeout now0 st0 user text0).2
          (turns.take k)).2 user = some c ∧
        c.missing = (getRequiredEntities actions intent).drop k ∧
        c.intent = intent) ∧
    ctxGet (processTurns actions timeout user
      (processMessage actions timeout now0 st0 user text0).2 turns).2 user =
      none ∧
    (∃ ents, (processTurns actions timeout user
      (processMessage actions timeout now0 st0 user text0).2 turns).1.getLast? =
        some (.ok (route actions intent ents))) := by
  obtain ⟨r0, rs, hreq⟩ :
      ∃ r0 rs, getRequiredEntities actions intent = r0 :: rs := by
    cases hq : getRequiredEntities actions intent with
    | nil => exact absurd hq hN
    | cons a b => exact ⟨a, b, rfl⟩
  have hentry := handleNewMessage_generic actions now0 st0 user
    (pyStrip text0) intent r0 rs hdet hask hlearn hreq hmiss
  have hstep0 : processMessage actions timeout now0 st0 user text0 =
      (.ok (promptForEntity r0),
       cmSetPending user intent (extract_entities (pyStrip text0) intent)
         (r0 :: rs) now0 st0) := by
    unfold processMessage
    rw [if_neg hne0, getPending_none user now0 timeout st0 hidle]
    exact hentry
  have hctx1 : ctxGet (processMessage actions timeout now0 st0 user text0).2
      user = some ⟨user, intent, extract_entities (pyStrip text0) intent,
        r0 :: rs, now0⟩ := by
    rw [hstep0]
    show ctxGet (cmSetPending user intent
      (extract_entities (pyStrip text0) intent) (r0 :: rs) now0 st0) user = _
    rw [ctxGet_setPending]
    simp
  have hrun := followup_run actions timeout user (r0 :: rs) turns
    (processMessage actions timeout now0 st0 user text0).2
    ⟨user, intent, extract_entities (pyStrip text0) intent, r0 :: rs, now0⟩
    hctx1 hlearn rfl (by simp) (hreq ▸ hnodup)
    (extract_entities_wf (pyStrip text0) intent)
    (fun e he => hmiss e (by rw [hreq]; exact he))
    (by rw [hlen, hreq])
    (fun p hp => ⟨(hturns p hp).1, (hturns p hp).2⟩)
  obtain ⟨hrunA, ⟨ents, hrunB⟩, hrunC⟩ := hrun
  refine ⟨?_, ?_, ?_, ?_, ?_⟩
  · rw [hstep0, hreq]
    rfl
  · refine ⟨⟨user, intent, extract_entities (pyStrip text0) intent,
      r0 :: rs, now0⟩, hctx1, rfl, by rw [hreq]⟩
  · intro k hk
    obtain ⟨c, hc1, hc2, hc3⟩ := hrunC k hk
    exact ⟨c, hc1, by rw [hreq]; exact hc2, hc3⟩
  · exact hrunA
  · exact ⟨ents, hrunB⟩

/-- C7 witness: with the weather action registered (one required entity,
`location`), the message "weather" supplies nothing, the bot prompts for
the location and a single follow-up "Tokyo" executes the action and
returns to Idle. -/
theorem C7_witness :
    (processMessage [weatherAction "sunny" 20] 5 0 ⟨[], []⟩ "u" "weather").1 =
      .ok "Can you please tell me the location?" ∧
    ctxGet (processTurns [weatherAction "sunny" 20] 5 "u"
      (processMessage [weatherAction "sunny" 20] 5 0 ⟨[], []⟩ "u" "weather").2
      [(1, "Tokyo")]).2 "u" = none := by
  have h := C7_slot_filling_exactly_n_turns [weatherAction "sunny" 20] 5 0
    ⟨[], []⟩ "u" "weather" "get_weather" [(1, "Tokyo")]
    rfl (by decide) (by decide) (by decide) (by decide)
    (by decide) (by decide) (by decide) (by decide)
    (by intro p hp; simp at hp; subst hp; exact ⟨by decide, by decide⟩)
  refine ⟨?_, h.2.2.2.1⟩
  have h1 := h.1
  rw [h1]
  rfl
